import Mathlib

/-!
Verification of the labeled record / sub-view / mapping framework of
`pg_utils/pg_model/base.py` (classes `LabeledCollection`,
`LabeledSubCollection`, `CollectionPG` and the functions `map_collection`
and `map_PG_fields`).

Shallow embedding conventions:
* Field values are Python objects of an opaque expression type `E`;
  a slot holds `Option E`, with `none` standing for Python `None`.
* A Python instance attribute dictionary is an association list
  `List (String × Option E)` in insertion order.
* Fallible Python code returns `Except PyErr _`; mutation is explicit
  state passing (a method that mutates `self` returns the updated value).
* A `LabeledSubCollection` holds no storage: each of its operations takes
  the base collection explicitly and, for writes, returns the updated base
  (this is the Python back-reference made explicit).
-/

/-- Python exception kinds raised by the embedded code. -/
inductive PyErr where
  | typeError
  | keyError
  | indexError
  | attributeError
  | assertionError
deriving DecidableEq

deriving instance DecidableEq for Except

/-- Association-list lookup (first match); models lookup in a Python
instance attribute dictionary and in a Python `dict`. -/
def alookup {K V : Type} [DecidableEq K] : List (K × V) → K → Option V
  | [], _ => none
  | kv :: rest, k => if kv.1 = k then some kv.2 else alookup rest k

/-- Python dict/attribute insertion `d[k] = v`: an existing key keeps its
position and receives the new value; a new key is appended (insertion
order, as in Python 3.7+ dicts and instance `__dict__`). -/
def dictInsert {K V : Type} [DecidableEq K] (d : List (K × V)) (k : K) (v : V) :
    List (K × V) :=
  if k ∈ d.map Prod.fst then d.map (fun kv => if kv.1 = k then (kv.1, v) else kv)
  else d ++ [(k, v)]

/-- Python list indexing `l[i]`: a negative index counts from the end;
out of range raises `IndexError`. -/
def pyListGet {α : Type} (l : List α) (i : Int) : Except PyErr α :=
  let j : Int := if i < 0 then i + l.length else i
  if 0 ≤ j then
    match l.get? j.toNat with
    | some a => Except.ok a
    | none => Except.error PyErr.indexError
  else Except.error PyErr.indexError

/-- One bound of a Python slice `l[start:stop]` with step 1: a negative
value counts from the end, then the bound is clamped to `[0, len]`. -/
def sliceBound (len : Nat) (i : Int) : Nat :=
  if i < 0 then (i + len).toNat else min i.toNat len

/-- Python slicing `l[start:stop]` with step 1 (the only step the source
uses); `none` stands for an omitted bound. -/
def pySlice {α : Type} (l : List α) (start stop : Option Int) : List α :=
  let s := match start with | none => 0 | some i => sliceBound l.length i
  let e := match stop with | none => l.length | some i => sliceBound l.length i
  (l.drop s).take (e - s)

/-- `LabeledCollection` (base.py): the schema `_field_names`, the value
slots of the instance attribute dictionary (`attrs`), the `_is_locked`
flag and the two iteration-mode flags.  `n_fields` and `n_iter` are kept
outside the structure: `n_fields` always equals `field_names.length`
(set once in `__init__` and never touched again) and the iterator cursor
`n_iter` is passed explicitly to `next`. -/
structure LabeledCollection (E : Type) where
  field_names : List String
  attrs : List (String × Option E)
  is_locked : Bool
  iter_name : Bool
  iter_filter : Bool
deriving DecidableEq

/-- Python `hasattr(self, n)` restricted to the modelled attributes. -/
def LabeledCollection.hasattr {E : Type} (c : LabeledCollection E) (n : String) : Bool :=
  (alookup c.attrs n).isSome

/-- `LabeledCollection.__setattr__`: once `_is_locked` is true, setting an
attribute the object does not already have raises `AttributeError`;
otherwise the attribute is written. -/
def LabeledCollection.setattr {E : Type} (c : LabeledCollection E) (n : String)
    (v : Option E) : Except PyErr (LabeledCollection E) :=
  if c.is_locked = true ∧ ¬ c.hasattr n = true then Except.error PyErr.attributeError
  else Except.ok { c with attrs := dictInsert c.attrs n v }

/-- The attribute dictionary `LabeledCollection.__init__` builds: every
name in `names` is set, to the supplied field value or to `None`. -/
def initAttrs {E : Type} (names : List String) (fields : List (String × Option E)) :
    List (String × Option E) :=
  names.foldl (fun a n => dictInsert a n ((alookup fields n).getD none)) []

/-- `LabeledCollection.__init__`: `_validate_field_entries` raises
`TypeError` (the spec's `SchemaViolation`) for any key of `fields` not in
`names`; otherwise every name becomes a slot, initialized from `fields`
or to `None`, the lock is off and both iteration flags are `False`. -/
def LabeledCollection.init {E : Type} (names : List String)
    (fields : List (String × Option E)) : Except PyErr (LabeledCollection E) :=
  if ∀ kv ∈ fields, kv.1 ∈ names then
    Except.ok { field_names := names, attrs := initAttrs names fields,
                is_locked := false, iter_name := false, iter_filter := false }
  else Except.error PyErr.typeError

/-- `LabeledCollection._getitem_by_name`: `KeyError` when the name is not
in the schema, else `getattr` (which cannot fail on a constructed
collection; a missing attribute would be Python `AttributeError`). -/
def LabeledCollection.getitem_by_name {E : Type} (c : LabeledCollection E)
    (n : String) : Except PyErr (Option E) :=
  if n ∈ c.field_names then
    match alookup c.attrs n with
    | some v => Except.ok v
    | none => Except.error PyErr.attributeError
  else Except.error PyErr.keyError

/-- `LabeledCollection._getitem_by_idx`: `self._field_names[__idx]` then
access by name. -/
def LabeledCollection.getitem_by_idx {E : Type} (c : LabeledCollection E)
    (i : Int) : Except PyErr (Option E) := do
  let n ← pyListGet c.field_names i
  c.getitem_by_name n

/-- `LabeledCollection._getitem_by_slice`. -/
def LabeledCollection.getitem_by_slice {E : Type} (c : LabeledCollection E)
    (start stop : Option Int) : Except PyErr (List (Option E)) :=
  (pySlice c.field_names start stop).mapM (fun n => c.getitem_by_name n)

/-- `LabeledCollection._setitem_by_name`: `KeyError` when the name is not
in the schema, else `setattr`. -/
def LabeledCollection.setitem_by_name {E : Type} (c : LabeledCollection E)
    (n : String) (v : Option E) : Except PyErr (LabeledCollection E) :=
  if n ∈ c.field_names then c.setattr n v else Except.error PyErr.keyError

/-- `LabeledCollection._setitem_by_idx`. -/
def LabeledCollection.setitem_by_idx {E : Type} (c : LabeledCollection E)
    (i : Int) (v : Option E) : Except PyErr (LabeledCollection E) := do
  let n ← pyListGet c.field_names i
  c.setitem_by_name n v

/-- The kinds of key a Python `__getitem__`/`__setitem__` can receive:
`int`, `str`, `slice`, or anything else (a float, `None`, ...). -/
inductive PyKey where
  | int (i : Int)
  | str (s : String)
  | slice (start stop : Option Int)
  | other
deriving DecidableEq

/-- `LabeledCollection.__setitem__`.  For a key that is neither `int` nor
`str` the source executes `return TypeError`: the exception class is
returned instead of raised, Python discards the return value of
`__setitem__`, and the call is a silent no-op (nothing is assigned and
nothing propagates to the caller). -/
def LabeledCollection.setitem {E : Type} (c : LabeledCollection E) (k : PyKey)
    (v : Option E) : Except PyErr (LabeledCollection E) :=
  match k with
  | PyKey.int i => c.setitem_by_idx i v
  | PyKey.str s => c.setitem_by_name s v
  | _ => Except.ok c

/-- An item yielded by `__next__`: a bare value, or a `(name, value)` pair
when `iter_name` is set. -/
inductive IterItem (E : Type) where
  | bare (v : Option E)
  | named (n : String) (v : Option E)
deriving DecidableEq

/-- Outcome of one `__next__` call: a yielded item together with the
updated `n_iter`, a `StopIteration`, or a raised error. -/
inductive NextOut (E : Type) where
  | item (it : IterItem E) (nIter : Nat)
  | stopIter
  | err (e : PyErr)
deriving DecidableEq

/-- Body of `LabeledCollection.__next__`, structurally recursive on the
number `fuel = n_fields - n_iter` of remaining positions (the guard
`self.n_iter < self.n_fields` is exactly `fuel > 0`).  Note the source
increments `n_iter` BEFORE using it to look up the name it pairs with the
yielded value (`item = (self._field_names[self.n_iter], item)`). -/
def LabeledCollection.nextAux {E : Type} (c : LabeledCollection E) :
    Nat → Nat → NextOut E
  | 0, _ => NextOut.stopIter
  | fuel + 1, nIter =>
    match c.getitem_by_idx (Int.ofNat nIter) with
    | Except.error e => NextOut.err e
    | Except.ok item =>
      if c.iter_filter = true ∧ item.isNone = true then c.nextAux fuel (nIter + 1)
      else if c.iter_name = true then
        match pyListGet c.field_names (Int.ofNat (nIter + 1)) with
        | Except.error e => NextOut.err e
        | Except.ok nm => NextOut.item (IterItem.named nm item) (nIter + 1)
      else NextOut.item (IterItem.bare item) (nIter + 1)

/-- `LabeledCollection.__next__` at iterator position `nIter`. -/
def LabeledCollection.next {E : Type} (c : LabeledCollection E) (nIter : Nat) :
    NextOut E :=
  c.nextAux (c.field_names.length - nIter) nIter

/-- `LabeledCollection._new_obj`: `LabeledCollection(self._field_names)`,
a fresh unlocked collection over the same schema with every slot `None`. -/
def LabeledCollection.new_obj {E : Type} (c : LabeledCollection E) :
    LabeledCollection E :=
  { field_names := c.field_names, attrs := initAttrs c.field_names [],
    is_locked := false, iter_name := false, iter_filter := false }

/-- The `for i_field in range(self.n_fields)` loop of
`LabeledCollection.apply` with `metadata=False` (the `metadata=True`
branch, which additionally passes the field name to `fun`, is not needed
by any claim): reads `self[i_field]`, which is the evolving target when
`inplace` and the untouched original otherwise, and writes
`apply_to[i_field]`. -/
def applyLoop {E : Type} (c : LabeledCollection E) (f : Option E → Option E)
    (inplace : Bool) : LabeledCollection E → List Nat →
    Except PyErr (LabeledCollection E)
  | t, [] => Except.ok t
  | t, i :: rest => do
    let src := if inplace then t else c
    let v ← src.getitem_by_idx (Int.ofNat i)
    let t' ← t.setitem_by_idx (Int.ofNat i) (f v)
    applyLoop c f inplace t' rest

/-- `LabeledCollection.apply` (metadata=False): the target is `self` when
`inplace`, else `self._new_obj()`; the loop then fills every slot. -/
def LabeledCollection.apply {E : Type} (c : LabeledCollection E)
    (f : Option E → Option E) (inplace : Bool) :
    Except PyErr (LabeledCollection E) :=
  applyLoop c f inplace (if inplace then c else c.new_obj)
    (List.range c.field_names.length)

/-- `LabeledCollection.copy`: rebuild a `LabeledCollection` over the same
schema from the current values. -/
def LabeledCollection.copy {E : Type} (c : LabeledCollection E) :
    Except PyErr (LabeledCollection E) := do
  let fields ← c.field_names.mapM (fun n => do
    let v ← c.getitem_by_name n
    pure (n, v))
  LabeledCollection.init c.field_names fields

/-- `LabeledCollection.generate_collection`: assert the mask length
(`AssertionError`, the spec's `LengthMismatch`), keep the names at true
positions with their current values, and construct a brand-new
`LabeledCollection` from them. -/
def LabeledCollection.generate_collection {E : Type} (c : LabeledCollection E)
    (mask : List Bool) : Except PyErr (LabeledCollection E) :=
  if mask.length = c.field_names.length then do
    let new_names := (c.field_names.zip mask).filterMap
      (fun p => if p.2 then some p.1 else none)
    let fields ← new_names.mapM (fun n => do
      let v ← c.getitem_by_name n
      pure (n, v))
    LabeledCollection.init new_names fields
  else Except.error PyErr.assertionError

/-- `LabeledSubCollection` (base.py): the captured sub-names, their
positional indices in the base at construction time, and the view's own
iteration flags.  The base collection is passed explicitly to every
operation (the Python object stores a back-reference `base_collection`,
so all reads and writes go to the base's storage). -/
structure LabeledSubCollection where
  sub_names : List String
  sub_idx : List Nat
  iter_name : Bool
  iter_filter : Bool
deriving DecidableEq

/-- `LabeledSubCollection.__init__` with `sub_slice = slice(start, stop)`
(every call site in the source uses a step-1 slice). -/
def LabeledSubCollection.init {E : Type} (base : LabeledCollection E)
    (start stop : Option Int) : LabeledSubCollection :=
  { sub_names := pySlice base.field_names start stop,
    sub_idx := pySlice (List.range base.field_names.length) start stop,
    iter_name := false, iter_filter := false }

/-- `LabeledSubCollection._getitem_by_idx`: `self._sub_names[__idx]` then
delegation to the base's by-name accessor. -/
def LabeledSubCollection.getitem_by_idx {E : Type} (v : LabeledSubCollection)
    (base : LabeledCollection E) (i : Int) : Except PyErr (Option E) := do
  let n ← pyListGet v.sub_names i
  base.getitem_by_name n

/-- `LabeledSubCollection._getitem_by_name`: `KeyError` outside the view's
names, else delegation to the base. -/
def LabeledSubCollection.getitem_by_name {E : Type} (v : LabeledSubCollection)
    (base : LabeledCollection E) (n : String) : Except PyErr (Option E) :=
  if n ∈ v.sub_names then base.getitem_by_name n
  else Except.error PyErr.keyError

/-- `LabeledSubCollection._setitem_by_name`: `KeyError` outside the view's
names, else delegation to the base's by-name setter. -/
def LabeledSubCollection.setitem_by_name {E : Type} (v : LabeledSubCollection)
    (base : LabeledCollection E) (n : String) (val : Option E) :
    Except PyErr (LabeledCollection E) :=
  if n ∈ v.sub_names then base.setitem_by_name n val
  else Except.error PyErr.keyError

/-- `LabeledSubCollection._setitem_by_idx`. -/
def LabeledSubCollection.setitem_by_idx {E : Type} (v : LabeledSubCollection)
    (base : LabeledCollection E) (i : Int) (val : Option E) :
    Except PyErr (LabeledCollection E) := do
  let n ← pyListGet v.sub_names i
  base.setitem_by_name n val

/-- `LabeledSubCollection.__setitem__`; like the base class it ends in
`return TypeError` for an unsupported key kind: a silent no-op, nothing
is raised. -/
def LabeledSubCollection.setitem {E : Type} (v : LabeledSubCollection)
    (base : LabeledCollection E) (k : PyKey) (val : Option E) :
    Except PyErr (LabeledCollection E) :=
  match k with
  | PyKey.int i => v.setitem_by_idx base i val
  | PyKey.str s => v.setitem_by_name base s val
  | _ => Except.ok base

/-- Body of `LabeledSubCollection.__next__` (fuel as for the base class).
When `iter_name` is set the source evaluates `self._field_names`, an
attribute `LabeledSubCollection` does not define, so Python raises
`AttributeError` at that point. -/
def LabeledSubCollection.nextAux {E : Type} (v : LabeledSubCollection)
    (base : LabeledCollection E) : Nat → Nat → NextOut E
  | 0, _ => NextOut.stopIter
  | fuel + 1, nIter =>
    match v.getitem_by_idx base (Int.ofNat nIter) with
    | Except.error e => NextOut.err e
    | Except.ok item =>
      if v.iter_filter = true ∧ item.isNone = true then v.nextAux base fuel (nIter + 1)
      else if v.iter_name = true then NextOut.err PyErr.attributeError
      else NextOut.item (IterItem.bare item) (nIter + 1)

/-- `LabeledSubCollection.__next__` at iterator position `nIter`. -/
def LabeledSubCollection.next {E : Type} (v : LabeledSubCollection)
    (base : LabeledCollection E) (nIter : Nat) : NextOut E :=
  v.nextAux base (v.sub_names.length - nIter) nIter

/-- `CollectionPG.pg_field_names`: the fixed 21-name schema. -/
def pg_field_names : List String :=
  ["Psi",
   "Mss", "Mpp", "Msp", "Msz", "Mpz", "zMss", "zMpp", "zMsp",
   "Bs_e", "Bp_e", "Bz_e", "dBs_dz_e", "dBp_dz_e",
   "Br_b", "Bs_p", "Bp_p", "Bz_p", "Bs_m", "Bp_m", "Bz_m"]

/-- `CollectionPG.__init__`: the base constructor on the fixed schema,
then `_disable_attribute_addition` (sets `_is_locked = True`). -/
def CollectionPG.init {E : Type} (fields : List (String × Option E)) :
    Except PyErr (LabeledCollection E) := do
  let c ← LabeledCollection.init pg_field_names fields
  Except.ok { c with is_locked := true }

/-- `CollectionPG.copy`: rebuild a `CollectionPG` from the current
values. -/
def CollectionPG.copy {E : Type} (c : LabeledCollection E) :
    Except PyErr (LabeledCollection E) := do
  let fields ← c.field_names.mapM (fun n => do
    let v ← c.getitem_by_name n
    pure (n, v))
  CollectionPG.init fields

/-- `CollectionPG.subset_mag`: `self._extract_subset(slice(1, None))`. -/
def CollectionPG.subset_mag {E : Type} (c : LabeledCollection E) :
    LabeledSubCollection :=
  LabeledSubCollection.init c (some 1) none

/-- `CollectionPG.subset_moments`: `slice(1, 9)`. -/
def CollectionPG.subset_moments {E : Type} (c : LabeledCollection E) :
    LabeledSubCollection :=
  LabeledSubCollection.init c (some 1) (some 9)

/-- `CollectionPG.subset_B_equator`: `slice(9, 14)`. -/
def CollectionPG.subset_B_equator {E : Type} (c : LabeledCollection E) :
    LabeledSubCollection :=
  LabeledSubCollection.init c (some 9) (some 14)

/-- `CollectionPG.subset_B_bound`: `slice(14, None)`. -/
def CollectionPG.subset_B_bound {E : Type} (c : LabeledCollection E) :
    LabeledSubCollection :=
  LabeledSubCollection.init c (some 14) none

/-- `CollectionPG.subset_B_bound_cyl`: `slice(15, None)`. -/
def CollectionPG.subset_B_bound_cyl {E : Type} (c : LabeledCollection E) :
    LabeledSubCollection :=
  LabeledSubCollection.init c (some 15) none

/-- Loop of the dict comprehension
`{maps_from[fname]: maps_to[fname] for fname in maps_to._field_names}`
in `map_collection`. -/
def mapCollLoop {E : Type} [DecidableEq E] (a b : LabeledCollection E)
    (d : List (Option E × Option E)) : List String →
    Except PyErr (List (Option E × Option E))
  | [] => Except.ok d
  | n :: rest => do
    let ka ← a.getitem_by_name n
    let vb ← b.getitem_by_name n
    mapCollLoop a b (dictInsert d ka vb) rest

/-- `map_collection`: `assert maps_from._field_names == maps_to._field_names`
(`AssertionError`, the spec's `SchemaMismatch`), then the dict
comprehension keyed by the values of `maps_from`. -/
def map_collection {E : Type} [DecidableEq E] (a b : LabeledCollection E) :
    Except PyErr (List (Option E × Option E)) :=
  if a.field_names = b.field_names then mapCollLoop a b [] b.field_names
  else Except.error PyErr.assertionError

/-- Loop of the dict comprehension
`{maps_from[i_field]: maps_to[i_field] for i_field in range(maps_from.n_fields)}`
in `map_PG_fields`. -/
def mapPGLoop {E : Type} [DecidableEq E] (a b : LabeledCollection E)
    (d : List (Option E × Option E)) : List Nat →
    Except PyErr (List (Option E × Option E))
  | [] => Except.ok d
  | i :: rest => do
    let ka ← a.getitem_by_idx (Int.ofNat i)
    let vb ← b.getitem_by_idx (Int.ofNat i)
    mapPGLoop a b (dictInsert d ka vb) rest

/-- `map_PG_fields`: positional dict comprehension over
`range(maps_from.n_fields)`, no schema check. -/
def map_PG_fields {E : Type} [DecidableEq E] (a b : LabeledCollection E) :
    Except PyErr (List (Option E × Option E)) :=
  mapPGLoop a b [] (List.range a.field_names.length)

/-- Well-formed collection: the schema names are unique and every schema
name has its attribute slot set, exactly what the constructor guarantees
(the spec's data-model invariant). -/
def LabeledCollection.WF {E : Type} (c : LabeledCollection E) : Prop :=
  c.field_names.Nodup ∧ ∀ n ∈ c.field_names, (alookup c.attrs n).isSome = true

/-- The value a collection stores at name `n` (`None` when the slot is
absent); on a well-formed collection this is what `getattr` returns. -/
def LabeledCollection.cval {E : Type} (c : LabeledCollection E) (n : String) :
    Option E :=
  (alookup c.attrs n).getD none

/-- The schema name at position `i` (junk `""` out of range). -/
def LabeledCollection.nameAt {E : Type} (c : LabeledCollection E) (i : Nat) :
    String :=
  c.field_names.getD i ""

/-! ## Basic lemmas on the embedded Python primitives -/

theorem except_ok_bind {ε α β : Type} (a : α) (f : α → Except ε β) :
    (Except.ok a >>= f : Except ε β) = f a := rfl

theorem except_error_bind {ε α β : Type} (e : ε) (f : α → Except ε β) :
    (Except.error e >>= f : Except ε β) = Except.error e := rfl

theorem alookup_eq_none_of_not_mem {K V : Type} [DecidableEq K]
    (d : List (K × V)) (k : K) (h : k ∉ d.map Prod.fst) : alookup d k = none := by
  induction d with
  | nil => rfl
  | cons kv rest ih =>
    simp only [List.map_cons, List.mem_cons, not_or] at h
    have hne : ¬ kv.1 = k := fun hh => h.1 hh.symm
    simp [alookup, hne, ih h.2]

theorem alookup_append {K V : Type} [DecidableEq K] (d1 d2 : List (K × V)) (k : K) :
    alookup (d1 ++ d2) k = (alookup d1 k).or (alookup d2 k) := by
  induction d1 with
  | nil => simp [alookup]
  | cons kv rest ih =>
    by_cases h : kv.1 = k <;> simp [alookup, h, ih]

theorem alookup_replace_self {K V : Type} [DecidableEq K] (d : List (K × V))
    (k : K) (v : V) (h : k ∈ d.map Prod.fst) :
    alookup (d.map (fun kv => if kv.1 = k then (kv.1, v) else kv)) k = some v := by
  induction d with
  | nil => simp at h
  | cons kv rest ih =>
    by_cases hk : kv.1 = k
    · simp [alookup, hk]
    · have h' : k ∈ rest.map Prod.fst := by
        simp only [List.map_cons, List.mem_cons] at h
        rcases h with h1 | h1
        · exact absurd h1.symm hk
        · exact h1
      simp [alookup, hk, ih h']

theorem alookup_replace_ne {K V : Type} [DecidableEq K] (d : List (K × V))
    (k k' : K) (v : V) (h : k' ≠ k) :
    alookup (d.map (fun kv => if kv.1 = k then (kv.1, v) else kv)) k' = alookup d k' := by
  induction d with
  | nil => rfl
  | cons kv rest ih =>
    simp only [List.map_cons]
    by_cases hk : kv.1 = k
    · rw [if_pos hk]
      have hne : (kv.1 = k') = False := eq_false (fun hh => h (hh.symm.trans hk))
      simp [alookup, hne, ih]
    · rw [if_neg hk]
      by_cases hk' : kv.1 = k' <;> simp [alookup, hk', ih]

theorem alookup_dictInsert_self {K V : Type} [DecidableEq K] (d : List (K × V))
    (k : K) (v : V) : alookup (dictInsert d k v) k = some v := by
  unfold dictInsert
  split
  · exact alookup_replace_self _ _ _ (by assumption)
  · rw [alookup_append, alookup_eq_none_of_not_mem _ _ (by assumption)]
    simp [alookup]

theorem alookup_dictInsert_ne {K V : Type} [DecidableEq K] (d : List (K × V))
    (k k' : K) (v : V) (h : k' ≠ k) :
    alookup (dictInsert d k v) k' = alookup d k' := by
  unfold dictInsert
  split
  · exact alookup_replace_ne _ _ _ _ h
  · rw [alookup_append]
    have h1 : alookup [(k, v)] k' = none := by
      have : ¬ k = k' := fun hh => h hh.symm
      simp [alookup, this]
    rw [h1]
    cases alookup d k' <;> simp

theorem dictInsert_keys {K V : Type} [DecidableEq K] (d : List (K × V))
    (k : K) (v : V) :
    (dictInsert d k v).map Prod.fst =
      if k ∈ d.map Prod.fst then d.map Prod.fst else d.map Prod.fst ++ [k] := by
  unfold dictInsert
  split <;> rename_i h
  · rw [List.map_map]
    have hcomp : (Prod.fst ∘ fun kv : K × V => if kv.1 = k then (kv.1, v) else kv)
        = Prod.fst := by
      funext kv
      by_cases hk : kv.1 = k <;> simp [hk, Function.comp]
    rw [hcomp]
  · simp

theorem pyListGet_ofNat {α : Type} (l : List α) (i : Nat) :
    pyListGet l (Int.ofNat i) = match l.get? i with
      | some a => Except.ok a
      | none => Except.error PyErr.indexError := by
  have h1 : ¬ ((Int.ofNat i) < 0) := not_lt.mpr (Int.ofNat_nonneg i)
  have h2 : (0 : Int) ≤ Int.ofNat i := Int.ofNat_nonneg i
  simp only [pyListGet, h1, if_false, h2, if_true]
  rfl

theorem pyListGet_ofNat_lt {α : Type} (l : List α) (i : Nat) (h : i < l.length)
    (dflt : α) : pyListGet l (Int.ofNat i) = Except.ok (l.getD i dflt) := by
  rw [pyListGet_ofNat]
  have h1 : l.get? i = some (l.getD i dflt) := by
    simp [List.get?_eq_getElem?, List.getElem?_eq_getElem h, List.getD_eq_getElem?_getD]
  rw [h1]

theorem pyListGet_ofNat_ge {α : Type} (l : List α) (i : Nat) (h : l.length ≤ i) :
    pyListGet l (Int.ofNat i) = Except.error PyErr.indexError := by
  have h1 : l.get? i = none := List.get?_eq_none.mpr h
  rw [pyListGet_ofNat, h1]

theorem pySlice_subset {α : Type} (l : List α) (start stop : Option Int) :
    ∀ x ∈ pySlice l start stop, x ∈ l := by
  intro x hx
  unfold pySlice at hx
  exact List.drop_subset _ _ (List.take_subset _ _ hx)

/-! ## Specification lemmas for the collection operations -/

theorem nameAt_mem {E : Type} (c : LabeledCollection E) (i : Nat)
    (hi : i < c.field_names.length) : c.nameAt i ∈ c.field_names := by
  unfold LabeledCollection.nameAt
  rw [List.getD_eq_get?, List.get?_eq_get hi]
  exact List.get_mem _ _ _

theorem getitem_by_name_ok {E : Type} (c : LabeledCollection E) (n : String)
    (hwf : c.WF) (hn : n ∈ c.field_names) :
    c.getitem_by_name n = Except.ok (c.cval n) := by
  have hs := hwf.2 n hn
  unfold LabeledCollection.getitem_by_name LabeledCollection.cval
  rw [if_pos hn]
  cases h : alookup c.attrs n with
  | none => rw [h] at hs; simp at hs
  | some v => simp [h]

theorem getitem_by_idx_ok {E : Type} (c : LabeledCollection E) (i : Nat)
    (hwf : c.WF) (hi : i < c.field_names.length) :
    c.getitem_by_idx (Int.ofNat i) = Except.ok (c.cval (c.nameAt i)) := by
  unfold LabeledCollection.getitem_by_idx
  rw [pyListGet_ofNat_lt c.field_names i hi "", except_ok_bind]
  exact getitem_by_name_ok c _ hwf (nameAt_mem c i hi)

theorem setattr_ok_of_hasattr {E : Type} (c : LabeledCollection E) (n : String)
    (v : Option E) (h : (alookup c.attrs n).isSome = true) :
    c.setattr n v = Except.ok { c with attrs := dictInsert c.attrs n v } := by
  unfold LabeledCollection.setattr
  rw [if_neg]
  simp [LabeledCollection.hasattr, h]

theorem setitem_by_name_ok {E : Type} (c : LabeledCollection E) (n : String)
    (v : Option E) (hwf : c.WF) (hn : n ∈ c.field_names) :
    c.setitem_by_name n v = Except.ok { c with attrs := dictInsert c.attrs n v } := by
  unfold LabeledCollection.setitem_by_name
  rw [if_pos hn]
  exact setattr_ok_of_hasattr c n v (hwf.2 n hn)

theorem WF_dictInsert {E : Type} (c : LabeledCollection E) (n : String)
    (v : Option E) (hwf : c.WF) :
    ({ c with attrs := dictInsert c.attrs n v } : LabeledCollection E).WF := by
  refine ⟨hwf.1, fun m hm => ?_⟩
  by_cases h : m = n
  · subst h
    rw [alookup_dictInsert_self]
    rfl
  · rw [alookup_dictInsert_ne _ _ _ _ h]
    exact hwf.2 m hm

theorem cval_dictInsert_self {E : Type} (c : LabeledCollection E) (n : String)
    (v : Option E) :
    ({ c with attrs := dictInsert c.attrs n v } : LabeledCollection E).cval n = v := by
  unfold LabeledCollection.cval
  rw [alookup_dictInsert_self]
  rfl

theorem cval_dictInsert_ne {E : Type} (c : LabeledCollection E) (n m : String)
    (v : Option E) (h : m ≠ n) :
    ({ c with attrs := dictInsert c.attrs n v } : LabeledCollection E).cval m = c.cval m := by
  unfold LabeledCollection.cval
  rw [alookup_dictInsert_ne _ _ _ _ h]

theorem alookup_initAttrs {E : Type} (names : List String)
    (fields : List (String × Option E)) (n : String) :
    alookup (initAttrs names fields) n =
      if n ∈ names then some ((alookup fields n).getD none) else none := by
  suffices h : ∀ a0 : List (String × Option E),
      alookup (names.foldl (fun a m => dictInsert a m ((alookup fields m).getD none)) a0) n
        = if n ∈ names then some ((alookup fields n).getD none) else alookup a0 n by
    simpa [initAttrs] using h []
  intro a0
  induction names generalizing a0 with
  | nil => simp
  | cons m rest ih =>
    rw [List.foldl_cons, ih]
    by_cases hn : n ∈ rest
    · simp [hn, List.mem_cons]
    · by_cases hm : n = m
      · subst hm
        simp [hn, alookup_dictInsert_self]
      · simp [hn, hm, alookup_dictInsert_ne _ _ _ _ hm]

/-! ## Claim C1: sub-view aliasing law -/

/-- C1: for every well-formed base `LabeledCollection` `c`, every sub-view
extracted from `c` over a range, and every name `n` in the view's name set:
writing `x` at `n` through the view (by name, or by any index the name has
within the view) makes the base read `x` at `n`; and after writing `x` at
`n` on the base, reading `n` through the view yields `x` — every view
access resolves to the base collection's storage slot. -/
theorem C1_subview_aliasing {E : Type} (c : LabeledCollection E) (hwf : c.WF)
    (start stop : Option Int) (n : String) (x : Option E)
    (hn : n ∈ (LabeledSubCollection.init c start stop).sub_names) :
    (∃ c', (LabeledSubCollection.init c start stop).setitem_by_name c n x = Except.ok c'
        ∧ c'.getitem_by_name n = Except.ok x)
    ∧ (∀ i : Int,
        pyListGet (LabeledSubCollection.init c start stop).sub_names i = Except.ok n →
        ∃ c', (LabeledSubCollection.init c start stop).setitem_by_idx c i x = Except.ok c'
          ∧ c'.getitem_by_name n = Except.ok x)
    ∧ (∃ c', c.setitem_by_name n x = Except.ok c'
        ∧ (LabeledSubCollection.init c start stop).getitem_by_name c' n = Except.ok x) := by
  have hnc : n ∈ c.field_names := pySlice_subset c.field_names start stop n hn
  have hset : c.setitem_by_name n x
      = Except.ok ({ c with attrs := dictInsert c.attrs n x } : LabeledCollection E) :=
    setitem_by_name_ok c n x hwf hnc
  have hwf' : ({ c with attrs := dictInsert c.attrs n x } : LabeledCollection E).WF :=
    WF_dictInsert c n x hwf
  have hget : ({ c with attrs := dictInsert c.attrs n x } : LabeledCollection E).getitem_by_name n
      = Except.ok x := by
    rw [getitem_by_name_ok _ n hwf' hnc, cval_dictInsert_self]
  refine ⟨⟨_, ?_, hget⟩, fun i hi => ⟨_, ?_, hget⟩, ⟨_, hset, ?_⟩⟩
  · unfold LabeledSubCollection.setitem_by_name
    rw [if_pos hn]
    exact hset
  · unfold LabeledSubCollection.setitem_by_idx
    rw [hi, except_ok_bind]
    exact hset
  · unfold LabeledSubCollection.getitem_by_name
    rw [if_pos hn]
    exact hget

/-- Concrete 3-field collection used by the C1 witness. -/
def c1w : LabeledCollection Nat :=
  { field_names := ["a", "b", "c"],
    attrs := [("a", some 1), ("b", none), ("c", some 3)],
    is_locked := false, iter_name := false, iter_filter := false }

theorem c1w_wf : c1w.WF := ⟨by decide, by decide⟩

/-- Witness for C1: the aliasing law at the concrete collection `c1w`,
view `[1:]`, name `"b"`, value `7`. -/
theorem C1_subview_aliasing_witness :
    (c1w.WF ∧ "b" ∈ (LabeledSubCollection.init c1w (some 1) none).sub_names)
    ∧ (∃ c', (LabeledSubCollection.init c1w (some 1) none).setitem_by_name c1w "b" (some 7)
          = Except.ok c' ∧ c'.getitem_by_name "b" = Except.ok (some 7)) :=
  ⟨⟨c1w_wf, by decide⟩,
    (C1_subview_aliasing c1w c1w_wf (some 1) none "b" (some 7) (by decide)).1⟩

/-! ## Claim C4: `__setitem__` with an unsupported key kind -/

/-- Concrete 1-field collection used for the C4 evaluation. -/
def c4w : LabeledCollection Nat :=
  { field_names := ["a"], attrs := [("a", none)], is_locked := false,
    iter_name := false, iter_filter := false }

/-- C4: the source's `__setitem__` ends in `return TypeError` instead of
`raise TypeError`, so `Set` with a key that is neither an integer nor a
name (a float, `None`, ...) is a silent no-op: nothing is raised, no
error reaches the caller, the collection is unchanged — on both
`LabeledCollection` and `LabeledSubCollection`.  This theorem evaluates
the embedded code at such an input (the reachable collection `c4w`). -/
theorem C4_setitem_swallows_typeerror :
    LabeledCollection.init ["a"] ([] : List (String × Option Nat)) = Except.ok c4w
    ∧ c4w.setitem PyKey.other (some 5) = Except.ok c4w
    ∧ (LabeledSubCollection.init c4w none none).setitem c4w PyKey.other (some 5)
        = Except.ok c4w :=
  ⟨by decide, by decide, by decide⟩

/-! ## Claim C2: iteration with `iterName` set -/

/-- Concrete 2-field collection with `iter_name = True` for the C2
evaluation (reached by construction plus the `iter_name` property setter). -/
def c2w : LabeledCollection Nat :=
  { field_names := ["a", "b"], attrs := [("a", some 10), ("b", some 20)],
    is_locked := false, iter_name := true, iter_filter := false }

/-- Sub-view of the same collection with `iter_name = True`. -/
def c2v : LabeledSubCollection :=
  { LabeledSubCollection.init ({ c2w with iter_name := false } : LabeledCollection Nat)
      none none with iter_name := true }

/-- C2: evaluation at a failing input.  With `iterName` set, the first
`__next__` on a two-field collection pairs the value of slot 0 with the
name of slot 1, yielding `("b", value-of-"a")`, because the source
increments `n_iter` before reading `self._field_names[self.n_iter]`;
yielding the last slot raises `IndexError` for the same reason; and on a
`LabeledSubCollection` the very first step raises `AttributeError`, since
the view class has no `_field_names` attribute. -/
theorem C2_next_mispairs_names_eval :
    LabeledCollection.init ["a", "b"] [("a", (some 10 : Option Nat)), ("b", some 20)]
      = Except.ok ({ c2w with iter_name := false } : LabeledCollection Nat)
    ∧ c2w.next 0 = NextOut.item (IterItem.named "b" (some 10)) 1
    ∧ c2w.next 1 = NextOut.err PyErr.indexError
    ∧ c2v.next c2w 0 = NextOut.err PyErr.attributeError :=
  ⟨by decide, by decide, by decide, by decide⟩

/-! ## Claim C7: construction with a key outside the schema -/

/-- C7: constructing with any initial field key outside `names` fails with
`TypeError` (the spec's `SchemaViolation`) — both through the generic
`LabeledCollection` constructor and through the `CollectionPG`
constructor. -/
theorem C7_construct_rejects_unknown_key {E : Type} (names : List String)
    (fields : List (String × Option E)) (kv : String × Option E)
    (hkv : kv ∈ fields) :
    (kv.1 ∉ names → LabeledCollection.init names fields = Except.error PyErr.typeError)
    ∧ (kv.1 ∉ pg_field_names → CollectionPG.init fields = Except.error PyErr.typeError) := by
  constructor
  · intro hnot
    unfold LabeledCollection.init
    rw [if_neg]
    intro hall
    exact hnot (hall kv hkv)
  · intro hnot
    have h1 : LabeledCollection.init pg_field_names fields
        = Except.error PyErr.typeError := by
      unfold LabeledCollection.init
      rw [if_neg]
      intro hall
      exact hnot (hall kv hkv)
    unfold CollectionPG.init
    rw [h1, except_error_bind]

/-- Witness for C7: the key `"zz"` is outside both schemas and both
constructors reject it. -/
theorem C7_construct_rejects_unknown_key_witness :
    (("zz", (some 1 : Option Nat)) ∈ [("zz", (some 1 : Option Nat))]
      ∧ "zz" ∉ ["a", "b"] ∧ "zz" ∉ pg_field_names)
    ∧ LabeledCollection.init ["a", "b"] [("zz", (some 1 : Option Nat))]
        = Except.error PyErr.typeError
    ∧ CollectionPG.init [("zz", (some 1 : Option Nat))]
        = Except.error PyErr.typeError :=
  ⟨⟨by decide, by decide, by decide⟩,
    (C7_construct_rejects_unknown_key ["a", "b"]
      [("zz", (some 1 : Option Nat))] ("zz", some 1) (by decide)).1 (by decide),
    (C7_construct_rejects_unknown_key ["a", "b"]
      [("zz", (some 1 : Option Nat))] ("zz", some 1) (by decide)).2 (by decide)⟩

/-! ## Claim C9: negative integer indexing -/

theorem getD_mem {α : Type} (l : List α) (i : Nat) (d : α) (h : i < l.length) :
    l.getD i d ∈ l := by
  rw [List.getD_eq_getElem?_getD, List.getElem?_eq_getElem h]
  exact List.getElem_mem h

theorem pyListGet_neg {α : Type} (l : List α) (k : Int)
    (h1 : -(l.length : Int) ≤ k) (h2 : k ≤ -1) :
    pyListGet l k = pyListGet l (Int.ofNat ((l.length : Int) + k).toNat) := by
  have hk : k < 0 := by omega
  have hj0 : (0 : Int) ≤ k + l.length := by omega
  have hofnat : ¬ (Int.ofNat ((l.length : Int) + k).toNat < 0) :=
    not_lt.mpr (Int.ofNat_nonneg _)
  have hof2 : (0 : Int) ≤ Int.ofNat ((l.length : Int) + k).toNat :=
    Int.ofNat_nonneg _
  simp only [pyListGet, hk, if_true, hofnat, if_false, hj0, hof2]
  have hred : (Int.ofNat (((l.length : Int) + k).toNat)).toNat
      = ((l.length : Int) + k).toNat := rfl
  have harg : (k + (l.length : Int)).toNat
      = (Int.ofNat (((l.length : Int) + k).toNat)).toNat := by
    rw [hred]
    omega
  rw [harg]

/-- C9: for a well-formed collection with `n` fields and any integer `k`
with `-n ≤ k ≤ -1`, `Get(k)` returns the value of the field at position
`n + k` and `Set(k, v)` writes that same field (Python negative indexing)
instead of failing; the same holds for any sub-view extracted from the
collection, relative to the view's own field count. -/
theorem C9_negative_indexing {E : Type} (c : LabeledCollection E) (hwf : c.WF)
    (k : Int) (hk1 : -(c.field_names.length : Int) ≤ k) (hk2 : k ≤ -1)
    (x : Option E) :
    (c.getitem_by_idx k
        = Except.ok (c.cval (c.nameAt ((c.field_names.length : Int) + k).toNat))
      ∧ c.setitem_by_idx k x
          = c.setitem_by_name (c.nameAt ((c.field_names.length : Int) + k).toNat) x
      ∧ ∃ c', c.setitem_by_idx k x = Except.ok c')
    ∧ ∀ (start stop : Option Int) (k' : Int),
        -(((LabeledSubCollection.init c start stop).sub_names.length : Int)) ≤ k' →
        k' ≤ -1 →
        ((LabeledSubCollection.init c start stop).getitem_by_idx c k'
            = Except.ok (c.cval ((LabeledSubCollection.init c start stop).sub_names.getD
                ((((LabeledSubCollection.init c start stop).sub_names.length : Int) + k').toNat) ""))
          ∧ ∃ c', (LabeledSubCollection.init c start stop).setitem_by_idx c k' x
              = Except.ok c') := by
  have hj : ((c.field_names.length : Int) + k).toNat < c.field_names.length := by omega
  have hmem : c.nameAt ((c.field_names.length : Int) + k).toNat ∈ c.field_names :=
    nameAt_mem c _ hj
  refine ⟨⟨?_, ?_, ?_⟩, ?_⟩
  · unfold LabeledCollection.getitem_by_idx
    rw [pyListGet_neg _ _ hk1 hk2, pyListGet_ofNat_lt _ _ hj "", except_ok_bind]
    exact getitem_by_name_ok c _ hwf hmem
  · unfold LabeledCollection.setitem_by_idx
    rw [pyListGet_neg _ _ hk1 hk2, pyListGet_ofNat_lt _ _ hj "", except_ok_bind]
    rfl
  · have hs : c.setitem_by_idx k x = Except.ok ({ c with
        attrs := dictInsert c.attrs (c.nameAt ((c.field_names.length : Int) + k).toNat) x } :
        LabeledCollection E) := by
      unfold LabeledCollection.setitem_by_idx
      rw [pyListGet_neg _ _ hk1 hk2, pyListGet_ofNat_lt _ _ hj "", except_ok_bind]
      exact setitem_by_name_ok c _ x hwf hmem
    exact ⟨_, hs⟩
  · intro start stop k' h1' h2'
    have hj' : (((LabeledSubCollection.init c start stop).sub_names.length : Int) + k').toNat
        < (LabeledSubCollection.init c start stop).sub_names.length := by omega
    have hsub : (LabeledSubCollection.init c start stop).sub_names.getD
        ((((LabeledSubCollection.init c start stop).sub_names.length : Int) + k').toNat) ""
        ∈ (LabeledSubCollection.init c start stop).sub_names :=
      getD_mem _ _ _ hj'
    have hmem' : (LabeledSubCollection.init c start stop).sub_names.getD
        ((((LabeledSubCollection.init c start stop).sub_names.length : Int) + k').toNat) ""
        ∈ c.field_names :=
      pySlice_subset c.field_names start stop _ hsub
    constructor
    · unfold LabeledSubCollection.getitem_by_idx
      rw [pyListGet_neg _ _ h1' h2', pyListGet_ofNat_lt _ _ hj' "", except_ok_bind]
      exact getitem_by_name_ok c _ hwf hmem'
    · have hs := setitem_by_name_ok c ((LabeledSubCollection.init c start stop).sub_names.getD
          ((((LabeledSubCollection.init c start stop).sub_names.length : Int) + k').toNat) "") x hwf hmem'
      have hs' : (LabeledSubCollection.init c start stop).setitem_by_idx c k' x
          = c.setitem_by_name ((LabeledSubCollection.init c start stop).sub_names.getD
              ((((LabeledSubCollection.init c start stop).sub_names.length : Int) + k').toNat) "") x := by
        unfold LabeledSubCollection.setitem_by_idx
        rw [pyListGet_neg _ _ h1' h2', pyListGet_ofNat_lt _ _ hj' "", except_ok_bind]
      exact ⟨_, hs'.trans hs⟩

/-- Witness for C9: index `-1` on the concrete collection `c1w` resolves
to its last field `"c"`. -/
theorem C9_negative_indexing_witness :
    (c1w.WF ∧ -(c1w.field_names.length : Int) ≤ -1 ∧ (-1 : Int) ≤ -1)
    ∧ c1w.getitem_by_idx (-1)
        = Except.ok (c1w.cval (c1w.nameAt ((c1w.field_names.length : Int) + -1).toNat)) :=
  ⟨⟨c1w_wf, by decide, by decide⟩,
    ((C9_negative_indexing c1w c1w_wf (-1) (by decide) (by decide) none).1).1⟩

/-! ## Constructor and copy lemmas -/

theorem init_ok_of_cond {E : Type} (names : List String)
    (fields : List (String × Option E)) (h : ∀ kv ∈ fields, kv.1 ∈ names) :
    LabeledCollection.init names fields = Except.ok
      ({ field_names := names, attrs := initAttrs names fields,
         is_locked := false, iter_name := false, iter_filter := false } :
         LabeledCollection E) := by
  unfold LabeledCollection.init
  rw [if_pos h]

theorem init_ok_elim {E : Type} (names : List String)
    (fields : List (String × Option E)) (c : LabeledCollection E)
    (h : LabeledCollection.init names fields = Except.ok c) :
    c = { field_names := names, attrs := initAttrs names fields,
          is_locked := false, iter_name := false, iter_filter := false }
      ∧ ∀ kv ∈ fields, kv.1 ∈ names := by
  unfold LabeledCollection.init at h
  split at h
  · rename_i hcond
    cases h
    exact ⟨rfl, hcond⟩
  · cases h

theorem initAttrs_isSome {E : Type} (names : List String)
    (fields : List (String × Option E)) (n : String) (hn : n ∈ names) :
    (alookup (initAttrs names fields) n).isSome = true := by
  rw [alookup_initAttrs, if_pos hn]
  rfl

theorem init_wf {E : Type} (names : List String)
    (fields : List (String × Option E)) (c : LabeledCollection E)
    (h : LabeledCollection.init names fields = Except.ok c)
    (hnd : names.Nodup) : c.WF := by
  obtain ⟨hc, -⟩ := init_ok_elim names fields c h
  subst hc
  exact ⟨hnd, fun n hn => initAttrs_isSome names fields n hn⟩

theorem pg_field_names_nodup : pg_field_names.Nodup := by decide

theorem pg_init_ok_of_cond {E : Type} (fields : List (String × Option E))
    (hcond : ∀ kv ∈ fields, kv.1 ∈ pg_field_names) :
    CollectionPG.init fields = Except.ok
      ({ field_names := pg_field_names, attrs := initAttrs pg_field_names fields,
         is_locked := true, iter_name := false, iter_filter := false } :
         LabeledCollection E) := by
  unfold CollectionPG.init
  rw [init_ok_of_cond _ _ hcond, except_ok_bind]

theorem pg_init_err_of_ncond {E : Type} (fields : List (String × Option E))
    (hncond : ¬ ∀ kv ∈ fields, kv.1 ∈ pg_field_names) :
    CollectionPG.init (E := E) fields = Except.error PyErr.typeError := by
  unfold CollectionPG.init LabeledCollection.init
  rw [if_neg hncond, except_error_bind]

theorem pg_init_ok_elim {E : Type} (fields : List (String × Option E))
    (c : LabeledCollection E) (h : CollectionPG.init fields = Except.ok c) :
    c = { field_names := pg_field_names, attrs := initAttrs pg_field_names fields,
          is_locked := true, iter_name := false, iter_filter := false }
      ∧ ∀ kv ∈ fields, kv.1 ∈ pg_field_names := by
  by_cases hcond : ∀ kv ∈ fields, kv.1 ∈ pg_field_names
  · rw [pg_init_ok_of_cond fields hcond] at h
    obtain rfl := Except.ok.inj h
    exact ⟨rfl, hcond⟩
  · rw [pg_init_err_of_ncond fields hcond] at h
    cases h

theorem pg_init_ok_facts {E : Type} (fields : List (String × Option E))
    (c : LabeledCollection E) (h : CollectionPG.init fields = Except.ok c) :
    c.field_names = pg_field_names ∧ c.attrs = initAttrs pg_field_names fields
      ∧ c.is_locked = true ∧ ∀ kv ∈ fields, kv.1 ∈ pg_field_names := by
  obtain ⟨hc, hcond⟩ := pg_init_ok_elim fields c h
  refine ⟨?_, ?_, ?_, hcond⟩
  · rw [hc]
  · rw [hc]
  · rw [hc]

theorem pg_init_wf {E : Type} (fields : List (String × Option E))
    (c : LabeledCollection E) (h : CollectionPG.init fields = Except.ok c) :
    c.WF := by
  obtain ⟨h1, h2, -, -⟩ := pg_init_ok_facts fields c h
  refine ⟨?_, ?_⟩
  · rw [h1]
    exact pg_field_names_nodup
  · intro n hn
    rw [h2]
    rw [h1] at hn
    exact initAttrs_isSome pg_field_names fields n hn

theorem mapM_getitem_ok {E : Type} (c : LabeledCollection E) (hwf : c.WF)
    (l : List String) (hl : ∀ n ∈ l, n ∈ c.field_names) :
    (l.mapM (fun n => do
        let v ← c.getitem_by_name n
        pure (n, v)) : Except PyErr (List (String × Option E)))
      = Except.ok (l.map (fun n => (n, c.cval n))) := by
  induction l with
  | nil => rfl
  | cons m rest ih =>
    have hm := getitem_by_name_ok c m hwf (hl m (List.mem_cons_self m rest))
    have hrest := ih (fun n hn => hl n (List.mem_cons_of_mem m hn))
    simp only [List.mapM_cons, hm, hrest, except_ok_bind]
    rfl

theorem sublist_filterMask {α : Type} (l : List α) (mask : List Bool) :
    ((l.zip mask).filterMap (fun p => if p.2 then some p.1 else none)).Sublist l := by
  induction l generalizing mask with
  | nil => simp
  | cons a t ih =>
    cases mask with
    | nil => simp
    | cons b bs =>
      cases b
      · simpa using (ih bs).cons a
      · simpa using (ih bs).cons₂ a

theorem alookup_map_pair {α V : Type} [DecidableEq α] (l : List α) (g : α → V)
    (n : α) (hn : n ∈ l) :
    alookup (l.map (fun m => (m, g m))) n = some (g n) := by
  induction l with
  | nil => simp at hn
  | cons a t ih =>
    by_cases ha : a = n
    · subst ha
      simp [alookup]
    · rcases List.mem_cons.mp hn with h | h
      · exact absurd h.symm ha
      · simp [alookup, ha, ih h]

theorem generate_collection_ok {E : Type} (c : LabeledCollection E)
    (mask : List Bool) (hwf : c.WF) (hlen : mask.length = c.field_names.length) :
    c.generate_collection mask = Except.ok
      ({ field_names :=
           (c.field_names.zip mask).filterMap (fun p => if p.2 then some p.1 else none),
         attrs := initAttrs
           ((c.field_names.zip mask).filterMap (fun p => if p.2 then some p.1 else none))
           (((c.field_names.zip mask).filterMap
              (fun p => if p.2 then some p.1 else none)).map (fun n => (n, c.cval n))),
         is_locked := false, iter_name := false, iter_filter := false } :
         LabeledCollection E) := by
  have hmapM := mapM_getitem_ok c hwf
    ((c.field_names.zip mask).filterMap (fun p => if p.2 then some p.1 else none))
    (fun n hn => (sublist_filterMask c.field_names mask).subset hn)
  have hcond : ∀ kv ∈ ((c.field_names.zip mask).filterMap
      (fun p => if p.2 then some p.1 else none)).map (fun n => (n, c.cval n)),
      kv.1 ∈ (c.field_names.zip mask).filterMap (fun p => if p.2 then some p.1 else none) := by
    intro kv hkv
    obtain ⟨n, hn, rfl⟩ := List.mem_map.mp hkv
    exact hn
  unfold LabeledCollection.generate_collection
  rw [if_pos hlen]
  simp only [hmapM, except_ok_bind, init_ok_of_cond _ _ hcond]

theorem setattr_locked_new_err {E : Type} (c : LabeledCollection E)
    (hlk : c.is_locked = true) (nm : String) (v : Option E)
    (hno : alookup c.attrs nm = none) :
    c.setattr nm v = Except.error PyErr.attributeError := by
  unfold LabeledCollection.setattr
  rw [if_pos]
  exact ⟨hlk, by simp [LabeledCollection.hasattr, hno]⟩

theorem setattr_unlocked_ok {E : Type} (c : LabeledCollection E)
    (hlk : c.is_locked = false) (nm : String) (v : Option E) :
    c.setattr nm v = Except.ok { c with attrs := dictInsert c.attrs nm v } := by
  unfold LabeledCollection.setattr
  rw [if_neg]
  simp [hlk]

theorem init_literal_wf {E : Type} (names : List String)
    (fields : List (String × Option E)) (hnd : names.Nodup) :
    ({ field_names := names, attrs := initAttrs names fields, is_locked := false,
       iter_name := false, iter_filter := false } : LabeledCollection E).WF :=
  ⟨hnd, fun n hn => initAttrs_isSome names fields n hn⟩

theorem init_literal_cval {E : Type} (names : List String) (g : String → Option E)
    (n : String) (hn : n ∈ names) :
    ({ field_names := names, attrs := initAttrs names (names.map (fun m => (m, g m))),
       is_locked := false, iter_name := false, iter_filter := false } :
       LabeledCollection E).cval n = g n := by
  unfold LabeledCollection.cval
  show (alookup (initAttrs names (names.map (fun m => (m, g m)))) n).getD none = g n
  rw [alookup_initAttrs, if_pos hn, alookup_map_pair names g n hn]
  rfl

/-! ## Claim C8: `generate_collection` copies values and does not alias -/

/-- C8: for every well-formed collection and boolean mask of matching
length, `generate_collection` succeeds and returns a collection whose
schema is exactly the names at true mask positions, each holding the value
the source currently holds at that name; the result does not alias the
source: writing `x` into any retained slot of the result succeeds and the
updated result reads `x`, while the source still reads its pre-call
value. -/
theorem C8_generate_subschema {E : Type} (c : LabeledCollection E)
    (mask : List Bool) (hwf : c.WF) (hlen : mask.length = c.field_names.length) :
    ∃ r, c.generate_collection mask = Except.ok r
      ∧ r.field_names = (c.field_names.zip mask).filterMap
          (fun p => if p.2 then some p.1 else none)
      ∧ (∀ n ∈ r.field_names, r.getitem_by_name n = c.getitem_by_name n)
      ∧ (∀ n ∈ r.field_names, ∀ x, ∃ r', r.setitem_by_name n x = Except.ok r'
          ∧ r'.getitem_by_name n = Except.ok x
          ∧ c.getitem_by_name n = Except.ok (c.cval n)) := by
  have hsub := sublist_filterMask c.field_names mask
  have hnodup := hsub.nodup hwf.1
  refine ⟨_, generate_collection_ok c mask hwf hlen, rfl, ?_, ?_⟩
  · intro n hn
    have hnn : n ∈ (c.field_names.zip mask).filterMap
        (fun p => if p.2 then some p.1 else none) := hn
    have hnc : n ∈ c.field_names := hsub.subset hnn
    rw [getitem_by_name_ok _ n (init_literal_wf _ _ hnodup) hnn,
        getitem_by_name_ok c n hwf hnc,
        init_literal_cval _ (fun m => c.cval m) n hnn]
  · intro n hn x
    have hnn : n ∈ (c.field_names.zip mask).filterMap
        (fun p => if p.2 then some p.1 else none) := hn
    have hnc : n ∈ c.field_names := hsub.subset hnn
    have hrwf := init_literal_wf _
      (((c.field_names.zip mask).filterMap
        (fun p => if p.2 then some p.1 else none)).map (fun m => (m, c.cval m))) hnodup
    refine ⟨_, setitem_by_name_ok _ n x hrwf hnn, ?_,
      getitem_by_name_ok c n hwf hnc⟩
    rw [getitem_by_name_ok _ n (WF_dictInsert _ n x hrwf) hnn, cval_dictInsert_self]

/-- Witness for C8 on `c1w` and the mask `[true, false, true]`. -/
theorem C8_generate_subschema_witness :
    (c1w.WF ∧ [true, false, true].length = c1w.field_names.length)
    ∧ (∃ r, c1w.generate_collection [true, false, true] = Except.ok r
        ∧ r.field_names = (c1w.field_names.zip [true, false, true]).filterMap
            (fun p => if p.2 then some p.1 else none)
        ∧ (∀ n ∈ r.field_names, r.getitem_by_name n = c1w.getitem_by_name n)
        ∧ (∀ n ∈ r.field_names, ∀ x, ∃ r', r.setitem_by_name n x = Except.ok r'
            ∧ r'.getitem_by_name n = Except.ok x
            ∧ c1w.getitem_by_name n = Except.ok (c1w.cval n))) :=
  ⟨⟨c1w_wf, by decide⟩, C8_generate_subschema c1w [true, false, true] c1w_wf (by decide)⟩

/-! ## Claim C10: `generate_collection` on a frozen `CollectionPG` -/

/-- C10: for a frozen `CollectionPG` and a valid 21-length mask,
`generate_collection` returns a plain unlocked `LabeledCollection`: a new
attribute name can be introduced on the result without error, even though
the frozen source rejects such additions with `AttributeError`; and
`CollectionPG.copy`, in contrast, reconstructs a locked `CollectionPG`. -/
theorem C10_generate_returns_unlocked {E : Type} (fields : List (String × Option E))
    (c : LabeledCollection E) (hc : CollectionPG.init fields = Except.ok c)
    (mask : List Bool) (hlen : mask.length = 21) :
    (∃ r, c.generate_collection mask = Except.ok r ∧ r.is_locked = false
       ∧ ∀ nm v, alookup r.attrs nm = none →
           r.setattr nm v = Except.ok { r with attrs := dictInsert r.attrs nm v })
    ∧ (∀ nm v, alookup c.attrs nm = none →
        c.setattr nm v = Except.error PyErr.attributeError)
    ∧ (∃ cc, CollectionPG.copy c = Except.ok cc ∧ cc.is_locked = true) := by
  obtain ⟨h1, -, h3, -⟩ := pg_init_ok_facts fields c hc
  have hwf := pg_init_wf fields c hc
  have hlen' : mask.length = c.field_names.length := by
    rw [h1]
    exact hlen
  refine ⟨⟨_, generate_collection_ok c mask hwf hlen', rfl, ?_⟩, ?_, ?_⟩
  · intro nm v hno
    exact setattr_unlocked_ok _ rfl nm v
  · intro nm v hno
    exact setattr_locked_new_err c h3 nm v hno
  · have hm := mapM_getitem_ok c hwf c.field_names (fun n hn => hn)
    have hcond2 : ∀ kv ∈ c.field_names.map (fun n => (n, c.cval n)),
        kv.1 ∈ pg_field_names := by
      intro kv hkv
      obtain ⟨n, hn, rfl⟩ := List.mem_map.mp hkv
      rw [h1] at hn
      exact hn
    have hcopy2 : CollectionPG.copy c = Except.ok
        ({ field_names := pg_field_names,
           attrs := initAttrs pg_field_names
             (c.field_names.map (fun n => (n, c.cval n))),
           is_locked := true, iter_name := false, iter_filter := false } :
           LabeledCollection E) := by
      unfold CollectionPG.copy
      rw [hm, except_ok_bind]
      exact pg_init_ok_of_cond _ hcond2
    exact ⟨_, hcopy2, rfl⟩

/-- The all-`None` `CollectionPG()` instance over `Nat` expression values. -/
def pgDefault : LabeledCollection Nat :=
  { field_names := pg_field_names, attrs := initAttrs pg_field_names [],
    is_locked := true, iter_name := false, iter_filter := false }

/-- Witness for C10 on the reachable frozen collection `CollectionPG()`
with an all-true 21-mask. -/
theorem C10_generate_returns_unlocked_witness :
    (CollectionPG.init ([] : List (String × Option Nat)) = Except.ok pgDefault
      ∧ (List.replicate 21 true).length = 21)
    ∧ ((∃ r, pgDefault.generate_collection (List.replicate 21 true) = Except.ok r
          ∧ r.is_locked = false
          ∧ ∀ nm v, alookup r.attrs nm = none →
              r.setattr nm v = Except.ok { r with attrs := dictInsert r.attrs nm v })
      ∧ (∀ nm v, alookup pgDefault.attrs nm = none →
          pgDefault.setattr nm v = Except.error PyErr.attributeError)
      ∧ (∃ cc, CollectionPG.copy pgDefault = Except.ok cc ∧ cc.is_locked = true)) :=
  ⟨⟨pg_init_ok_of_cond [] (by intro kv hkv; cases hkv), by decide⟩,
    C10_generate_returns_unlocked [] pgDefault
      (pg_init_ok_of_cond [] (by intro kv hkv; cases hkv))
      (List.replicate 21 true) (by decide)⟩

/-! ## Claim C6: `apply` contract -/

theorem setitem_by_idx_ok {E : Type} (c : LabeledCollection E) (i : Nat)
    (v : Option E) (hwf : c.WF) (hi : i < c.field_names.length) :
    c.setitem_by_idx (Int.ofNat i) v
      = Except.ok { c with attrs := dictInsert c.attrs (c.nameAt i) v } := by
  unfold LabeledCollection.setitem_by_idx
  rw [pyListGet_ofNat_lt _ _ hi "", except_ok_bind]
  exact setitem_by_name_ok c _ v hwf (nameAt_mem c i hi)

theorem nameAt_inj {E : Type} (c : LabeledCollection E)
    (hnd : c.field_names.Nodup) (i j : Nat) (hi : i < c.field_names.length)
    (hj : j < c.field_names.length) (hij : i ≠ j) : c.nameAt i ≠ c.nameAt j := by
  unfold LabeledCollection.nameAt
  rw [List.getD_eq_getElem?_getD, List.getElem?_eq_getElem hi,
      List.getD_eq_getElem?_getD, List.getElem?_eq_getElem hj]
  simp only [Option.getD_some]
  intro h
  exact hij ((List.Nodup.getElem_inj_iff hnd).mp h)

theorem applyLoop_nil {E : Type} (c : LabeledCollection E) (f : Option E → Option E)
    (b : Bool) (t : LabeledCollection E) : applyLoop c f b t [] = Except.ok t := rfl

theorem applyLoop_cons_false {E : Type} (c : LabeledCollection E)
    (f : Option E → Option E) (t : LabeledCollection E) (i : Nat) (rest : List Nat) :
    applyLoop c f false t (i :: rest) = (do
      let v ← c.getitem_by_idx (Int.ofNat i)
      let t' ← t.setitem_by_idx (Int.ofNat i) (f v)
      applyLoop c f false t' rest) := rfl

theorem applyLoop_cons_true {E : Type} (c : LabeledCollection E)
    (f : Option E → Option E) (t : LabeledCollection E) (i : Nat) (rest : List Nat) :
    applyLoop c f true t (i :: rest) = (do
      let v ← t.getitem_by_idx (Int.ofNat i)
      let t' ← t.setitem_by_idx (Int.ofNat i) (f v)
      applyLoop c f true t' rest) := rfl

theorem applyLoop_false_spec {E : Type} (c : LabeledCollection E)
    (f : Option E → Option E) (hwf : c.WF) :
    ∀ (l : List Nat) (t : LabeledCollection E), t.WF →
      t.field_names = c.field_names → (∀ i ∈ l, i < c.field_names.length) →
      ∃ r, applyLoop c f false t l = Except.ok r
        ∧ r.field_names = c.field_names
        ∧ r.is_locked = t.is_locked
        ∧ r.WF
        ∧ ∀ n, r.cval n = if n ∈ l.map (fun j => c.nameAt j) then f (c.cval n)
            else t.cval n := by
  intro l
  induction l with
  | nil =>
    intro t hwt hfn hbound
    exact ⟨t, rfl, hfn, rfl, hwt, fun n => by simp⟩
  | cons i rest ih =>
    intro t hwt hfn hbound
    have hi : i < c.field_names.length := hbound i (List.mem_cons_self i rest)
    have hit : i < t.field_names.length := by rw [hfn]; exact hi
    have hnt : t.nameAt i = c.nameAt i := by
      unfold LabeledCollection.nameAt
      rw [hfn]
    have hgv := getitem_by_idx_ok c i hwf hi
    have hsv := setitem_by_idx_ok t i (f (c.cval (c.nameAt i))) hwt hit
    rw [hnt] at hsv
    rw [applyLoop_cons_false, hgv, except_ok_bind, hsv, except_ok_bind]
    obtain ⟨r, hr, hrf, hrl, hrwf, hrc⟩ := ih
      { t with attrs := dictInsert t.attrs (c.nameAt i) (f (c.cval (c.nameAt i))) }
      (WF_dictInsert t _ _ hwt) hfn (fun j hj => hbound j (List.mem_cons_of_mem i hj))
    refine ⟨r, hr, hrf, hrl, hrwf, fun n => ?_⟩
    rw [hrc n]
    by_cases h1 : n ∈ rest.map (fun j => c.nameAt j)
    · have h1' : n ∈ (i :: rest).map (fun j => c.nameAt j) := by
        simp only [List.map_cons, List.mem_cons]
        exact Or.inr h1
      rw [if_pos h1, if_pos h1']
    · by_cases h2 : n = c.nameAt i
      · have h2' : n ∈ (i :: rest).map (fun j => c.nameAt j) := by
          simp only [List.map_cons, List.mem_cons]
          exact Or.inl h2
        rw [if_neg h1, if_pos h2', h2]
        exact cval_dictInsert_self t (c.nameAt i) (f (c.cval (c.nameAt i)))
      · have h2' : n ∉ (i :: rest).map (fun j => c.nameAt j) := by
          simp only [List.map_cons, List.mem_cons]
          tauto
        rw [if_neg h1, if_neg h2']
        exact cval_dictInsert_ne t (c.nameAt i) n _ h2

theorem applyLoop_true_spec {E : Type} (c : LabeledCollection E)
    (f : Option E → Option E) (hndc : c.field_names.Nodup) :
    ∀ (l : List Nat) (t : LabeledCollection E), t.WF →
      t.field_names = c.field_names → l.Nodup →
      (∀ i ∈ l, i < c.field_names.length) →
      (∀ i ∈ l, t.cval (c.nameAt i) = c.cval (c.nameAt i)) →
      ∃ r, applyLoop c f true t l = Except.ok r
        ∧ r.field_names = c.field_names
        ∧ r.is_locked = t.is_locked
        ∧ r.WF
        ∧ ∀ n, r.cval n = if n ∈ l.map (fun j => c.nameAt j) then f (c.cval n)
            else t.cval n := by
  intro l
  induction l with
  | nil =>
    intro t hwt hfn hnd hbound hpre
    exact ⟨t, rfl, hfn, rfl, hwt, fun n => by simp⟩
  | cons i rest ih =>
    intro t hwt hfn hnd hbound hpre
    have hi : i < c.field_names.length := hbound i (List.mem_cons_self i rest)
    have hit : i < t.field_names.length := by rw [hfn]; exact hi
    have hnt : t.nameAt i = c.nameAt i := by
      unfold LabeledCollection.nameAt
      rw [hfn]
    have hgv : t.getitem_by_idx (Int.ofNat i) = Except.ok (c.cval (c.nameAt i)) := by
      rw [getitem_by_idx_ok t i hwt hit, hnt, hpre i (List.mem_cons_self i rest)]
    have hsv := setitem_by_idx_ok t i (f (c.cval (c.nameAt i))) hwt hit
    rw [hnt] at hsv
    rw [applyLoop_cons_true, hgv, except_ok_bind, hsv, except_ok_bind]
    have hinotr : i ∉ rest := (List.nodup_cons.mp hnd).1
    have hpre' : ∀ j ∈ rest,
        ({ t with attrs := dictInsert t.attrs (c.nameAt i) (f (c.cval (c.nameAt i))) } :
          LabeledCollection E).cval (c.nameAt j) = c.cval (c.nameAt j) := by
      intro j hj
      have hji : c.nameAt j ≠ c.nameAt i :=
        nameAt_inj c hndc j i (hbound j (List.mem_cons_of_mem i hj)) hi
          (fun hh => hinotr (hh ▸ hj))
      rw [cval_dictInsert_ne t (c.nameAt i) (c.nameAt j) _ hji]
      exact hpre j (List.mem_cons_of_mem i hj)
    obtain ⟨r, hr, hrf, hrl, hrwf, hrc⟩ := ih
      { t with attrs := dictInsert t.attrs (c.nameAt i) (f (c.cval (c.nameAt i))) }
      (WF_dictInsert t _ _ hwt) hfn (List.nodup_cons.mp hnd).2
      (fun j hj => hbound j (List.mem_cons_of_mem i hj)) hpre'
    refine ⟨r, hr, hrf, hrl, hrwf, fun n => ?_⟩
    rw [hrc n]
    by_cases h1 : n ∈ rest.map (fun j => c.nameAt j)
    · have h1' : n ∈ (i :: rest).map (fun j => c.nameAt j) := by
        simp only [List.map_cons, List.mem_cons]
        exact Or.inr h1
      rw [if_pos h1, if_pos h1']
    · by_cases h2 : n = c.nameAt i
      · have h2' : n ∈ (i :: rest).map (fun j => c.nameAt j) := by
          simp only [List.map_cons, List.mem_cons]
          exact Or.inl h2
        rw [if_neg h1, if_pos h2', h2]
        exact cval_dictInsert_self t (c.nameAt i) (f (c.cval (c.nameAt i)))
      · have h2' : n ∉ (i :: rest).map (fun j => c.nameAt j) := by
          simp only [List.map_cons, List.mem_cons]
          tauto
        rw [if_neg h1, if_neg h2']
        exact cval_dictInsert_ne t (c.nameAt i) n _ h2

/-- C6: `apply(fn, inplace=False)` returns a fresh collection over the
same schema whose slot `i` holds `fn` of the source's slot `i`, the
source being read unchanged (it still yields its original values);
`apply(fn, inplace=True)` returns the receiver itself (same schema, same
lock state) with every slot `i` updated to `fn` of its previous value. -/
theorem C6_apply_contract {E : Type} (c : LabeledCollection E)
    (f : Option E → Option E) (hwf : c.WF) :
    (∃ r, c.apply f false = Except.ok r
       ∧ r.field_names = c.field_names ∧ r.is_locked = false
       ∧ ∀ i : Nat, i < c.field_names.length →
           ∃ v, c.getitem_by_idx (Int.ofNat i) = Except.ok v
             ∧ r.getitem_by_idx (Int.ofNat i) = Except.ok (f v))
    ∧ (∃ r, c.apply f true = Except.ok r
       ∧ r.field_names = c.field_names ∧ r.is_locked = c.is_locked
       ∧ ∀ i : Nat, i < c.field_names.length →
           ∃ v, c.getitem_by_idx (Int.ofNat i) = Except.ok v
             ∧ r.getitem_by_idx (Int.ofNat i) = Except.ok (f v)) := by
  have hbound : ∀ i ∈ List.range c.field_names.length, i < c.field_names.length :=
    fun i hi => List.mem_range.mp hi
  constructor
  · have hnwf : (c.new_obj).WF := ⟨hwf.1, fun n hn => initAttrs_isSome _ _ n hn⟩
    obtain ⟨r, hr, hrf, hrl, hrwf, hrc⟩ :=
      applyLoop_false_spec c f hwf (List.range c.field_names.length) c.new_obj
        hnwf rfl hbound
    refine ⟨r, hr, hrf, hrl, ?_⟩
    intro i hi
    have hic : i < r.field_names.length := by rw [hrf]; exact hi
    have hrn : r.nameAt i = c.nameAt i := by
      unfold LabeledCollection.nameAt
      rw [hrf]
    have hmm : c.nameAt i ∈ (List.range c.field_names.length).map (fun j => c.nameAt j) :=
      List.mem_map.mpr ⟨i, List.mem_range.mpr hi, rfl⟩
    refine ⟨c.cval (c.nameAt i), getitem_by_idx_ok c i hwf hi, ?_⟩
    rw [getitem_by_idx_ok r i hrwf hic, hrn, hrc (c.nameAt i), if_pos hmm]
  · obtain ⟨r, hr, hrf, hrl, hrwf, hrc⟩ :=
      applyLoop_true_spec c f hwf.1 (List.range c.field_names.length) c
        hwf rfl (List.nodup_range _) hbound (fun i hi => rfl)
    refine ⟨r, hr, hrf, hrl, ?_⟩
    intro i hi
    have hic : i < r.field_names.length := by rw [hrf]; exact hi
    have hrn : r.nameAt i = c.nameAt i := by
      unfold LabeledCollection.nameAt
      rw [hrf]
    have hmm : c.nameAt i ∈ (List.range c.field_names.length).map (fun j => c.nameAt j) :=
      List.mem_map.mpr ⟨i, List.mem_range.mpr hi, rfl⟩
    refine ⟨c.cval (c.nameAt i), getitem_by_idx_ok c i hwf hi, ?_⟩
    rw [getitem_by_idx_ok r i hrwf hic, hrn, hrc (c.nameAt i), if_pos hmm]

/-- Witness for C6 on `c1w` with the constant function `fun v => some 42`. -/
theorem C6_apply_contract_witness :
    c1w.WF
    ∧ ((∃ r, c1w.apply (fun v => some 42) false = Except.ok r
        ∧ r.field_names = c1w.field_names ∧ r.is_locked = false
        ∧ ∀ i : Nat, i < c1w.field_names.length →
            ∃ v, c1w.getitem_by_idx (Int.ofNat i) = Except.ok v
              ∧ r.getitem_by_idx (Int.ofNat i) = Except.ok (some 42))
      ∧ (∃ r, c1w.apply (fun v => some 42) true = Except.ok r
        ∧ r.field_names = c1w.field_names ∧ r.is_locked = c1w.is_locked
        ∧ ∀ i : Nat, i < c1w.field_names.length →
            ∃ v, c1w.getitem_by_idx (Int.ofNat i) = Except.ok v
              ∧ r.getitem_by_idx (Int.ofNat i) = Except.ok (some 42))) :=
  ⟨c1w_wf, C6_apply_contract c1w (fun v => some 42) c1w_wf⟩

/-! ## Dictionary-comprehension lemmas for the mapping utilities -/

theorem dictInsert_keys_nodup {K V : Type} [DecidableEq K] (d : List (K × V))
    (k : K) (v : V) (h : (d.map Prod.fst).Nodup) :
    ((dictInsert d k v).map Prod.fst).Nodup := by
  rw [dictInsert_keys]
  split
  · exact h
  · rename_i hm
    refine List.Nodup.append h (List.nodup_singleton k) ?_
    intro x hx hx2
    rw [List.mem_singleton] at hx2
    subst hx2
    exact hm hx

theorem foldl_dictInsert_keys_nodup {K V : Type} [DecidableEq K] :
    ∀ (ps d : List (K × V)), (d.map Prod.fst).Nodup →
      ((ps.foldl (fun d p => dictInsert d p.1 p.2) d).map Prod.fst).Nodup := by
  intro ps
  induction ps with
  | nil => exact fun d h => h
  | cons p rest ih =>
    intro d h
    rw [List.foldl_cons]
    exact ih _ (dictInsert_keys_nodup d p.1 p.2 h)

theorem foldl_dictInsert_keys_toFinset {K V : Type} [DecidableEq K] :
    ∀ (ps d : List (K × V)),
      ((ps.foldl (fun d p => dictInsert d p.1 p.2) d).map Prod.fst).toFinset
        = (d.map Prod.fst).toFinset ∪ (ps.map Prod.fst).toFinset := by
  intro ps
  induction ps with
  | nil => intro d; simp
  | cons p rest ih =>
    intro d
    rw [List.foldl_cons, ih, dictInsert_keys]
    split <;> rename_i hm
    · ext x
      simp only [List.mem_toFinset, Finset.mem_union, List.map_cons, List.toFinset_cons,
        Finset.mem_insert]
      constructor
      · rintro (hx | hx)
        · exact Or.inl hx
        · exact Or.inr (Or.inr hx)
      · rintro (hx | rfl | hx)
        · exact Or.inl hx
        · exact Or.inl hm
        · exact Or.inr hx
    · ext x
      simp only [List.mem_toFinset, Finset.mem_union, List.map_cons, List.toFinset_cons,
        Finset.mem_insert, List.toFinset_append, List.mem_append, List.mem_singleton,
        List.mem_cons, List.not_mem_nil, or_false]
      tauto

theorem foldl_dictInsert_length {K V : Type} [DecidableEq K] (ps : List (K × V)) :
    (ps.foldl (fun d p => dictInsert d p.1 p.2) []).length
      = (ps.map Prod.fst).toFinset.card := by
  have h1 : ((ps.foldl (fun d p => dictInsert d p.1 p.2) ([] : List (K × V))).map
      Prod.fst).Nodup :=
    foldl_dictInsert_keys_nodup ps [] (by simp)
  have h3 : ((ps.foldl (fun d p => dictInsert d p.1 p.2) ([] : List (K × V))).map
      Prod.fst).toFinset = (ps.map Prod.fst).toFinset := by
    rw [foldl_dictInsert_keys_toFinset ps []]
    simp
  calc (ps.foldl (fun d p => dictInsert d p.1 p.2) []).length
      = ((ps.foldl (fun d p => dictInsert d p.1 p.2) ([] : List (K × V))).map
          Prod.fst).length := (List.length_map _ _).symm
    _ = ((ps.foldl (fun d p => dictInsert d p.1 p.2) ([] : List (K × V))).map
          Prod.fst).toFinset.card := (List.toFinset_card_of_nodup h1).symm
    _ = (ps.map Prod.fst).toFinset.card := by rw [h3]

theorem alookup_foldl_dictInsert {K V : Type} [DecidableEq K] :
    ∀ (ps d : List (K × V)) (k : K),
      alookup (ps.foldl (fun d p => dictInsert d p.1 p.2) d) k =
        match ps.reverse.find? (fun p => decide (p.1 = k)) with
        | some p => some p.2
        | none => alookup d k := by
  intro ps
  induction ps with
  | nil => intro d k; simp
  | cons p rest ih =>
    intro d k
    rw [List.foldl_cons, ih, List.reverse_cons, List.find?_append]
    cases hfind : rest.reverse.find? (fun q => decide (q.1 = k)) with
    | some q => simp
    | none =>
      simp only [Option.none_or]
      by_cases hk : p.1 = k
      · subst hk
        simp [List.find?_cons, alookup_dictInsert_self]
      · simp [List.find?_cons, hk, alookup_dictInsert_ne d p.1 k p.2
          (fun hh => hk hh.symm)]

theorem find?_skip_then_hit {α : Type} (p : α → Bool) :
    ∀ (l1 : List α) (x : α) (l2 : List α), (∀ y ∈ l1, p y = false) → p x = true →
      (l1 ++ x :: l2).find? p = some x := by
  intro l1
  induction l1 with
  | nil =>
    intro x l2 h1 h2
    simp [List.find?_cons, h2]
  | cons a t ih =>
    intro x l2 h1 h2
    have ha := h1 a (List.mem_cons_self a t)
    simp only [List.cons_append, List.find?_cons, ha]
    exact ih x l2 (fun y hy => h1 y (List.mem_cons_of_mem a hy)) h2

theorem mapCollLoop_cons {E : Type} [DecidableEq E] (a b : LabeledCollection E)
    (d : List (Option E × Option E)) (m : String) (rest : List String) :
    mapCollLoop a b d (m :: rest) = (do
      let ka ← a.getitem_by_name m
      let vb ← b.getitem_by_name m
      mapCollLoop a b (dictInsert d ka vb) rest) := rfl

theorem mapCollLoop_ok {E : Type} [DecidableEq E] (a b : LabeledCollection E)
    (hwa : a.WF) (hwb : b.WF) :
    ∀ (l : List String) (d : List (Option E × Option E)),
      (∀ n ∈ l, n ∈ a.field_names) → (∀ n ∈ l, n ∈ b.field_names) →
      mapCollLoop a b d l = Except.ok
        ((l.map (fun n => (a.cval n, b.cval n))).foldl
          (fun d p => dictInsert d p.1 p.2) d) := by
  intro l
  induction l with
  | nil => intro d _ _; rfl
  | cons m rest ih =>
    intro d h1 h2
    rw [mapCollLoop_cons, getitem_by_name_ok a m hwa (h1 m (List.mem_cons_self m rest)),
        except_ok_bind, getitem_by_name_ok b m hwb (h2 m (List.mem_cons_self m rest)),
        except_ok_bind, List.map_cons, List.foldl_cons]
    exact ih (dictInsert d (a.cval m) (b.cval m))
      (fun n hn => h1 n (List.mem_cons_of_mem m hn))
      (fun n hn => h2 n (List.mem_cons_of_mem m hn))

theorem mapPGLoop_cons {E : Type} [DecidableEq E] (a b : LabeledCollection E)
    (d : List (Option E × Option E)) (i : Nat) (rest : List Nat) :
    mapPGLoop a b d (i :: rest) = (do
      let ka ← a.getitem_by_idx (Int.ofNat i)
      let vb ← b.getitem_by_idx (Int.ofNat i)
      mapPGLoop a b (dictInsert d ka vb) rest) := rfl

theorem mapPGLoop_ok {E : Type} [DecidableEq E] (a b : LabeledCollection E)
    (hwa : a.WF) (hwb : b.WF) :
    ∀ (l : List Nat) (d : List (Option E × Option E)),
      (∀ i ∈ l, i < a.field_names.length) → (∀ i ∈ l, i < b.field_names.length) →
      mapPGLoop a b d l = Except.ok
        ((l.map (fun i => (a.cval (a.nameAt i), b.cval (b.nameAt i)))).foldl
          (fun d p => dictInsert d p.1 p.2) d) := by
  intro l
  induction l with
  | nil => intro d _ _; rfl
  | cons i rest ih =>
    intro d h1 h2
    rw [mapPGLoop_cons, getitem_by_idx_ok a i hwa (h1 i (List.mem_cons_self i rest)),
        except_ok_bind, getitem_by_idx_ok b i hwb (h2 i (List.mem_cons_self i rest)),
        except_ok_bind, List.map_cons, List.foldl_cons]
    exact ih (dictInsert d (a.cval (a.nameAt i)) (b.cval (b.nameAt i)))
      (fun j hj => h1 j (List.mem_cons_of_mem i hj))
      (fun j hj => h2 j (List.mem_cons_of_mem i hj))

theorem mapPGLoop_err {E : Type} [DecidableEq E] (a b : LabeledCollection E)
    (hwa : a.WF) (hwb : b.WF) :
    ∀ (l1 : List Nat) (i0 : Nat) (l2 : List Nat) (d : List (Option E × Option E)),
      (∀ i ∈ l1, i < a.field_names.length) → (∀ i ∈ l1, i < b.field_names.length) →
      i0 < a.field_names.length → b.field_names.length ≤ i0 →
      mapPGLoop a b d (l1 ++ i0 :: l2) = Except.error PyErr.indexError := by
  intro l1
  induction l1 with
  | nil =>
    intro i0 l2 d _ _ hia hib
    have hb : b.getitem_by_idx (Int.ofNat i0) = Except.error PyErr.indexError := by
      unfold LabeledCollection.getitem_by_idx
      rw [pyListGet_ofNat_ge _ _ hib, except_error_bind]
    rw [List.nil_append, mapPGLoop_cons, getitem_by_idx_ok a i0 hwa hia,
        except_ok_bind, hb, except_error_bind]
  | cons j t ih =>
    intro i0 l2 d h1 h2 hia hib
    rw [List.cons_append, mapPGLoop_cons,
        getitem_by_idx_ok a j hwa (h1 j (List.mem_cons_self j t)), except_ok_bind,
        getitem_by_idx_ok b j hwb (h2 j (List.mem_cons_self j t)), except_ok_bind]
    exact ih i0 l2 _ (fun i hi => h1 i (List.mem_cons_of_mem j hi))
      (fun i hi => h2 i (List.mem_cons_of_mem j hi)) hia hib

/-! ## Claim C5: `map_collection` (MapByName) -/

/-- C5: `map_collection` fails with `AssertionError` (the spec's
`SchemaMismatch`) whenever the two ordered name sequences differ; with
identical schemas it returns a dictionary keyed by the values stored in
`a`, with one entry per unique value of `a`, in which the value of `a` at
a name `n` maps to `b`'s value at `n` whenever `n` is the last name in
schema order holding that value (last one wins). -/
theorem C5_map_by_name {E : Type} [DecidableEq E] (a b : LabeledCollection E)
    (hwa : a.WF) (hwb : b.WF) :
    (a.field_names ≠ b.field_names →
      map_collection a b = Except.error PyErr.assertionError)
    ∧ (a.field_names = b.field_names →
      ∃ d, map_collection a b = Except.ok d
        ∧ d.length = (a.field_names.map (fun n => a.cval n)).toFinset.card
        ∧ ∀ l1 n l2, a.field_names = l1 ++ n :: l2 →
            (∀ m ∈ l2, a.cval m ≠ a.cval n) →
            alookup d (a.cval n) = some (b.cval n)) := by
  constructor
  · intro hne
    unfold map_collection
    rw [if_neg hne]
  · intro heq
    have hloop := mapCollLoop_ok a b hwa hwb b.field_names []
      (fun n hn => by rw [heq]; exact hn) (fun n hn => hn)
    rw [← heq] at hloop
    refine ⟨(a.field_names.map (fun m => (a.cval m, b.cval m))).foldl
      (fun d p => dictInsert d p.1 p.2) [], ?_, ?_, ?_⟩
    · unfold map_collection
      rw [if_pos heq, ← heq]
      exact hloop
    · have hkeys : ((a.field_names.map (fun m => (a.cval m, b.cval m))).map Prod.fst)
          = a.field_names.map (fun n => a.cval n) := by
        rw [List.map_map]
        rfl
      rw [foldl_dictInsert_length, hkeys]
    · intro l1 n l2 hsplit hlast
      rw [alookup_foldl_dictInsert]
      have hshape : ((a.field_names.map (fun m => (a.cval m, b.cval m))).reverse)
          = ((l2.map (fun m => (a.cval m, b.cval m))).reverse)
            ++ ((a.cval n, b.cval n) :: (l1.map (fun m => (a.cval m, b.cval m))).reverse) := by
        rw [hsplit, List.map_append, List.map_cons, List.reverse_append,
            List.reverse_cons, List.append_assoc, List.singleton_append]
      have hfalse : ∀ y ∈ (l2.map (fun m => (a.cval m, b.cval m))).reverse,
          (fun p => decide (p.1 = a.cval n)) y = false := by
        intro y hy
        rw [List.mem_reverse] at hy
        obtain ⟨m, hm, rfl⟩ := List.mem_map.mp hy
        simp only [decide_eq_false_iff_not]
        exact hlast m hm
      have htrue : (fun p => decide (p.1 = a.cval n)) (a.cval n, b.cval n) = true := by
        simp
      rw [hshape, find?_skip_then_hit _ _ _ _ hfalse htrue]

/-- Concrete collection with a duplicated value, for the C5 witness. -/
def c5a : LabeledCollection Nat :=
  { field_names := ["x", "y"], attrs := [("x", some 1), ("y", some 1)],
    is_locked := false, iter_name := false, iter_filter := false }

/-- Concrete target collection for the C5 witness. -/
def c5b : LabeledCollection Nat :=
  { field_names := ["x", "y"], attrs := [("x", some 2), ("y", some 3)],
    is_locked := false, iter_name := false, iter_filter := false }

/-- Witness for C5 on two concrete same-schema collections, where `a`
holds the same value at both names (so one entry survives). -/
theorem C5_map_by_name_witness :
    (c5a.WF ∧ c5b.WF)
    ∧ ((c5a.field_names ≠ c5b.field_names →
        map_collection c5a c5b = Except.error PyErr.assertionError)
      ∧ (c5a.field_names = c5b.field_names →
        ∃ d, map_collection c5a c5b = Except.ok d
          ∧ d.length = (c5a.field_names.map (fun n => c5a.cval n)).toFinset.card
          ∧ ∀ l1 n l2, c5a.field_names = l1 ++ n :: l2 →
              (∀ m ∈ l2, c5a.cval m ≠ c5a.cval n) →
              alookup d (c5a.cval n) = some (c5b.cval n))) :=
  ⟨⟨⟨by decide, by decide⟩, ⟨by decide, by decide⟩⟩,
    C5_map_by_name c5a c5b ⟨by decide, by decide⟩ ⟨by decide, by decide⟩⟩

/-! ## Claim C3: `map_PG_fields` (MapByPosition) -/

theorem range_split_at (n i : Nat) (hi : i < n) :
    List.range n = List.range i ++ i :: List.range' (i + 1) (n - i - 1) := by
  have h2 : n - i = (n - i - 1) + 1 := by omega
  have h3 : List.range' i (n - i) = i :: List.range' (i + 1) (n - i - 1) := by
    conv_lhs => rw [h2]
    rw [List.range'_succ]
  have h1 : List.range' 0 i ++ List.range' i (n - i) = List.range' 0 n := by
    have h5 := List.range'_append 0 i (n - i) 1
    simp only [Nat.zero_add, Nat.one_mul] at h5
    have h4 : n - i + i = n := by omega
    rw [h4] at h5
    exact h5
  rw [List.range_eq_range', List.range_eq_range', ← h1, h3]

/-- C3 (amended): `map_PG_fields` raises `IndexError` as soon as `a` has
more fields than `b`; when `len(a) ≤ len(b)` it never raises and returns
the dictionary pairing the value of `a` at position `i` with the value of
`b` at position `i` for every `i < len(a)` — keyed by the values of `a`,
so there is one entry per unique value of `a` (for duplicate values the
target at the last such position wins), not `min(len(a), len(b))`
entries. -/
theorem C3_map_by_position_amended {E : Type} [DecidableEq E]
    (a b : LabeledCollection E) (hwa : a.WF) (hwb : b.WF) :
    (a.field_names.length ≤ b.field_names.length →
      ∃ d, map_PG_fields a b = Except.ok d
        ∧ d.length = ((List.range a.field_names.length).map
            (fun i => a.cval (a.nameAt i))).toFinset.card
        ∧ ∀ i, i < a.field_names.length →
            (∀ j, i < j → j < a.field_names.length →
              a.cval (a.nameAt j) ≠ a.cval (a.nameAt i)) →
            alookup d (a.cval (a.nameAt i)) = some (b.cval (b.nameAt i)))
    ∧ (b.field_names.length < a.field_names.length →
        map_PG_fields a b = Except.error PyErr.indexError) := by
  constructor
  · intro hle
    have hloop := mapPGLoop_ok a b hwa hwb (List.range a.field_names.length) []
      (fun i hi => List.mem_range.mp hi)
      (fun i hi => lt_of_lt_of_le (List.mem_range.mp hi) hle)
    have hmain : map_PG_fields a b = Except.ok
        (((List.range a.field_names.length).map
          (fun i => (a.cval (a.nameAt i), b.cval (b.nameAt i)))).foldl
          (fun d p => dictInsert d p.1 p.2) []) := hloop
    refine ⟨_, hmain, ?_, ?_⟩
    · have hkeys : (((List.range a.field_names.length).map
          (fun i => (a.cval (a.nameAt i), b.cval (b.nameAt i)))).map Prod.fst)
          = (List.range a.field_names.length).map (fun i => a.cval (a.nameAt i)) := by
        rw [List.map_map]
        rfl
      rw [foldl_dictInsert_length, hkeys]
    · intro i hi hlast
      rw [alookup_foldl_dictInsert]
      have hshape : (((List.range a.field_names.length).map
          (fun j => (a.cval (a.nameAt j), b.cval (b.nameAt j)))).reverse)
          = (((List.range' (i + 1) (a.field_names.length - i - 1)).map
              (fun j => (a.cval (a.nameAt j), b.cval (b.nameAt j)))).reverse)
            ++ ((a.cval (a.nameAt i), b.cval (b.nameAt i))
              :: ((List.range i).map
                (fun j => (a.cval (a.nameAt j), b.cval (b.nameAt j)))).reverse) := by
        rw [range_split_at a.field_names.length i hi, List.map_append, List.map_cons,
            List.reverse_append, List.reverse_cons, List.append_assoc,
            List.singleton_append]
      have hfalse : ∀ y ∈ (((List.range' (i + 1) (a.field_names.length - i - 1)).map
            (fun j => (a.cval (a.nameAt j), b.cval (b.nameAt j)))).reverse),
          (fun p => decide (p.1 = a.cval (a.nameAt i))) y = false := by
        intro y hy
        rw [List.mem_reverse] at hy
        obtain ⟨j, hj, rfl⟩ := List.mem_map.mp hy
        rw [List.mem_range'] at hj
        obtain ⟨t, ht, rfl⟩ := hj
        simp only [decide_eq_false_iff_not]
        exact hlast (i + 1 + 1 * t) (by omega) (by omega)
      have htrue : (fun p => decide (p.1 = a.cval (a.nameAt i)))
          (a.cval (a.nameAt i), b.cval (b.nameAt i)) = true := by
        simp
      rw [hshape, find?_skip_then_hit _ _ _ _ hfalse htrue]
  · intro hlt
    have herr := mapPGLoop_err a b hwa hwb (List.range b.field_names.length)
      b.field_names.length
      (List.range' (b.field_names.length + 1)
        (a.field_names.length - b.field_names.length - 1)) []
      (fun i hi => lt_trans (List.mem_range.mp hi) hlt)
      (fun i hi => List.mem_range.mp hi)
      hlt (le_refl _)
    unfold map_PG_fields
    rw [range_split_at a.field_names.length b.field_names.length hlt]
    exact herr

/-- Well-formedness of the all-`None` `CollectionPG()` instance. -/
theorem pgDefault_wf : pgDefault.WF :=
  pg_init_wf [] pgDefault (pg_init_ok_of_cond [] (by intro kv hkv; cases hkv))

/-- C3: counterexample to the claim as stated.  On the reachable input
`a = b = CollectionPG()` (21 fields, every value `None`), `map_PG_fields`
does not raise, but returns a dictionary with a single entry
`{None: None}` instead of `min(len(a), len(b)) = 21` entries, because the
dict is keyed by the values of `a` and equal values collapse. -/
theorem C3_map_by_position_counterexample :
    CollectionPG.init ([] : List (String × Option Nat)) = Except.ok pgDefault
    ∧ map_PG_fields pgDefault pgDefault = Except.ok [(none, none)]
    ∧ pgDefault.field_names.length = 21
    ∧ ¬ ((1 : Nat) = min 21 21) :=
  ⟨pg_init_ok_of_cond [] (by intro kv hkv; cases hkv), by decide, by decide, by decide⟩

/-- Witness for the amended C3 on `a = b = CollectionPG()`. -/
theorem C3_map_by_position_amended_witness :
    (pgDefault.WF
      ∧ pgDefault.field_names.length ≤ pgDefault.field_names.length)
    ∧ (∃ d, map_PG_fields pgDefault pgDefault = Except.ok d
        ∧ d.length = ((List.range pgDefault.field_names.length).map
            (fun i => pgDefault.cval (pgDefault.nameAt i))).toFinset.card
        ∧ ∀ i, i < pgDefault.field_names.length →
            (∀ j, i < j → j < pgDefault.field_names.length →
              pgDefault.cval (pgDefault.nameAt j) ≠ pgDefault.cval (pgDefault.nameAt i)) →
            alookup d (pgDefault.cval (pgDefault.nameAt i))
              = some (pgDefault.cval (pgDefault.nameAt i))) :=
  ⟨⟨pgDefault_wf, le_refl _⟩,
    (C3_map_by_position_amended pgDefault pgDefault pgDefault_wf pgDefault_wf).1
      (le_refl _)⟩
